import Mathlib

/-!
# Verification of the vintage video filter core (`video_vintage.py`)

Shallow embedding of the per-frame effect pipeline of the repository:
the five color-grade transforms, the noise / chromatic-aberration / jitter
primitives, the light-leak state machine and the overlay compositor.

Modelling conventions:
* An 8-bit image is a `Frame := List (List RGB)`; channel values are rationals
  (all operations keep them integral in `[0, 255]`).
* Python / numpy floating-point arithmetic is modelled with exact rationals.
* Randomness is modelled by explicit oracle inputs (a draw record or a stream),
  constrained by hypotheses mirroring the ranges the source draws from.
-/

/- Batteries marks the `Rat` field operations `@[irreducible]`, which blocks
`decide`/`rfl` evaluation of concrete pixel arithmetic; restore the default
reducibility for this file. -/
attribute [local semireducible] Rat.add Rat.mul Rat.inv Rat.sub Rat.ofScientific

namespace VideoVintage

/-- One RGB pixel; channels are rationals (integral `[0,255]` values in use). -/
structure RGB where
  r : ℚ
  g : ℚ
  b : ℚ
deriving DecidableEq, Repr

/-- A frame: a list of rows of pixels (numpy `(H, W, 3)` array). -/
abbrev Frame := List (List RGB)

def RGB.add (p q : RGB) : RGB := ⟨p.r + q.r, p.g + q.g, p.b + q.b⟩

def RGB.smul (c : ℚ) (p : RGB) : RGB := ⟨c * p.r, c * p.g, c * p.b⟩

def RGB.cmap (f : ℚ → ℚ) (p : RGB) : RGB := ⟨f p.r, f p.g, f p.b⟩

/-- Number of rows of a frame. -/
def Frame.height (f : Frame) : ℕ := f.length

/-- Number of columns of a frame (length of the first row). -/
def Frame.width (f : Frame) : ℕ := (f.headD []).length

/-- Pixel access with a black default out of range. -/
def Frame.get (f : Frame) (i j : ℕ) : RGB := (f.getD i []).getD j ⟨0, 0, 0⟩

/-- Apply a pixel function everywhere (vectorized numpy/PIL point operation). -/
def mapFrame (g : RGB → RGB) (f : Frame) : Frame := f.map (List.map g)

/-- Build a frame of given dimensions from an index function. -/
def buildFrame (h w : ℕ) (g : ℕ → ℕ → RGB) : Frame :=
  (List.range h).map (fun i => (List.range w).map (g i))

/-- `np.clip(x, 0, 255)` followed by `astype(np.uint8)` (truncation toward
zero; after the clip the value is nonnegative, so truncation is `⌊·⌋`). -/
def clipByte (q : ℚ) : ℚ :=
  if q ≤ 0 then 0 else if 255 ≤ q then 255 else ((⌊q⌋ : ℤ) : ℚ)

/-! ## PIL primitives used by the grade transforms

`ImageEnhance.Brightness/Contrast/Color` all reduce to
`Image.blend(degenerate, image, factor)`; PIL's `Blend.c` computes
`in1 + alpha*(in2 - in1)` in floating point, clamps at 0 and 255 and
truncates to `UINT8`. The degenerate image is black for Brightness, a solid
gray at the rounded mean of the `L`-converted image for Contrast, and the
per-pixel `L` grayscale for Color. -/

/-- PIL RGB→L conversion: `L = (R*19595 + G*38470 + B*7471 + 0x8000) >> 16`. -/
def lumaL (p : RGB) : ℚ :=
  ((⌊(p.r * 19595 + p.g * 38470 + p.b * 7471 + 32768) / 65536⌋ : ℤ) : ℚ)

/-- One channel of `Image.blend(degenerate, image, factor)`:
`temp = d + factor*(i - d)`; `≤ 0 ↦ 0`, `≥ 255 ↦ 255`, else truncate. -/
def blendChannel (factor d i : ℚ) : ℚ :=
  let temp := d + factor * (i - d)
  if temp ≤ 0 then 0 else if 255 ≤ temp then 255 else ((⌊temp⌋ : ℤ) : ℚ)

/-- `ImageEnhance.Brightness(img).enhance(factor)`: degenerate = black. -/
def enhanceBrightness (factor : ℚ) (f : Frame) : Frame :=
  mapFrame (fun p => ⟨blendChannel factor 0 p.r,
                      blendChannel factor 0 p.g,
                      blendChannel factor 0 p.b⟩) f

/-- Mean of the `L` conversion over all pixels (`ImageStat.Stat(im.convert("L")).mean[0]`). -/
def meanL (f : Frame) : ℚ :=
  let px := f.flatten
  (px.map lumaL).sum / (px.length : ℚ)

/-- `ImageEnhance.Contrast(img).enhance(factor)`: degenerate is a solid gray
image at `int(mean + 0.5)` of the `L` conversion. -/
def enhanceContrast (factor : ℚ) (f : Frame) : Frame :=
  let m : ℚ := ((⌊meanL f + 1/2⌋ : ℤ) : ℚ)
  mapFrame (fun p => ⟨blendChannel factor m p.r,
                      blendChannel factor m p.g,
                      blendChannel factor m p.b⟩) f

/-- `ImageEnhance.Color(img).enhance(factor)`: degenerate is the per-pixel
`L` grayscale replicated onto all three channels. -/
def enhanceColor (factor : ℚ) (f : Frame) : Frame :=
  mapFrame (fun p =>
    let d := lumaL p
    ⟨blendChannel factor d p.r, blendChannel factor d p.g, blendChannel factor d p.b⟩) f

/-! ## Gaussian blur (clarity softening)

PIL's `ImageFilter.GaussianBlur(radius)` runs three box-blur passes per axis
with edge clamping (`BoxBlur.c`); each pass uses full-weight integer taps and
two fractional edge taps, normalized by `2r+1`, rounding to the nearest byte.
PIL derives the per-pass box radius from the Gaussian radius through an
irrational square-root formula; we model each pass with the Gaussian radius
itself.  Every claim in this development evaluates the blur only on uniform
frames, on which every clamp-padded normalized box kernel is the identity,
so this choice does not affect any stated result. -/

/-- Clamp an integer index into `[0, w-1]` (PIL edge extension). -/
def clampIdx (j : ℤ) (w : ℕ) : ℕ := (max 0 (min ((w : ℤ) - 1) j)).toNat

/-- Row access with clamped index. -/
def rowGetClamped (row : List RGB) (j : ℤ) : RGB :=
  row.getD (clampIdx j row.length) ⟨0, 0, 0⟩

/-- Round to the nearest integer (ties up), as PIL's box blur does per pass. -/
def roundByte (q : ℚ) : ℚ := ((⌊q + 1/2⌋ : ℤ) : ℚ)

/-- One horizontal box-blur pass of fractional radius `r` over one row:
taps at offsets `-⌊r⌋..⌊r⌋` with weight 1, offsets `±(⌊r⌋+1)` with weight
`r - ⌊r⌋`, normalized by `2r+1`, edge-clamped, rounded per pass. -/
def boxBlurRow (r : ℚ) (row : List RGB) : List RGB :=
  let m : ℕ := (⌊r⌋ : ℤ).toNat
  let frac : ℚ := r - ((⌊r⌋ : ℤ) : ℚ)
  (List.range row.length).map (fun j =>
    let full : RGB := (List.range (2 * m + 1)).foldl
      (fun acc k => acc.add (rowGetClamped row ((j : ℤ) + (k : ℤ) - (m : ℤ)))) ⟨0, 0, 0⟩
    let edges : RGB := (rowGetClamped row ((j : ℤ) - (m : ℤ) - 1)).add
                 (rowGetClamped row ((j : ℤ) + (m : ℤ) + 1))
    (RGB.smul (1 / (2 * r + 1)) (full.add (RGB.smul frac edges))).cmap roundByte)

/-- Box blur every row (horizontal pass). -/
def boxBlurRows (r : ℚ) (f : Frame) : Frame := f.map (boxBlurRow r)

/-- Box blur every column (vertical pass), via transposition. -/
def boxBlurCols (r : ℚ) (f : Frame) : Frame :=
  (boxBlurRows r f.transpose).transpose

/-- One horizontal + one vertical box-blur pass. -/
def blurPass (r : ℚ) (f : Frame) : Frame := boxBlurCols r (boxBlurRows r f)

/-- `img.filter(ImageFilter.GaussianBlur(radius))`: three box-blur passes
per axis (see the section comment for the per-pass radius modelling). -/
def gaussianBlur (r : ℚ) (f : Frame) : Frame :=
  blurPass r (blurPass r (blurPass r f))

/-- `apply_clarity_softening(img, strength)`: Gaussian blur of radius
`strength / 2.5` when `strength > 0`, otherwise the image unchanged. -/
def applyClaritySoftening (strength : ℚ) (f : Frame) : Frame :=
  if 0 < strength then gaussianBlur (strength / (5/2)) f else f

/-! ## Noise primitive -/

/-- `add_noise_vectorized(arr, amount)`: returns the array unchanged when
`amount <= 0`; otherwise adds one draw per channel per pixel (the source draws
`np.random.randint(-amount, amount+1)`, modelled by the `noise` oracle) in
`int16` arithmetic and clips the result back to `[0, 255]` bytes. -/
def addNoiseVectorized (f : Frame) (amount : ℤ) (noise : ℕ → ℕ → RGB) : Frame :=
  if amount ≤ 0 then f
  else f.mapIdx (fun i row => row.mapIdx (fun j p =>
    let d := noise i j
    ⟨clipByte (p.r + d.r), clipByte (p.g + d.g), clipByte (p.b + d.b)⟩))

/-! ## Array-level stages of the five grade transforms -/

/-- Tag for the vectorized array stage of each grade transform. -/
inductive ArrayStage
  | fuji | terracotta | portra | reala | dreamy
deriving DecidableEq, Repr

/-- `np.dot(arr[..., :3], [0.299, 0.587, 0.114])` on one pixel (no rounding). -/
def lumaF (p : RGB) : ℚ := (299/1000) * p.r + (587/1000) * p.g + (114/1000) * p.b

/-- `modern_fuji_sim` array stage: shift `(R+15, G+5, B-10)`, blend 95%/5%
with the per-pixel luma, clip and truncate to bytes. -/
def fujiArrayStage (f : Frame) : Frame :=
  mapFrame (fun p =>
    let l := lumaF p
    let blend := fun (c : ℚ) => clipByte (c * (19/20) + l * (1/20))
    ⟨blend (p.r + 15), blend (p.g + 5), blend (p.b - 10)⟩) f

/-- `terracotta_sun_sim` array stage: `avg_rg = (r + g) // 2`; pixels with
`b > avg_rg + 30` get shift `(+15, -10, -70)`, others `(+40, -5, -35)`;
clip to bytes (`int16` arithmetic). -/
def terracottaArrayStage (f : Frame) : Frame :=
  mapFrame (fun p =>
    let avg : ℚ := ((⌊(p.r + p.g) / 2⌋ : ℤ) : ℚ)
    if avg + 30 < p.b then
      ⟨clipByte (p.r + 15), clipByte (p.g - 10), clipByte (p.b - 70)⟩
    else
      ⟨clipByte (p.r + 40), clipByte (p.g - 5), clipByte (p.b - 35)⟩) f

/-- `portra_800_sim` array stage: `(R+19, G+10, B-33)`, clip to bytes. -/
def portraArrayStage (f : Frame) : Frame :=
  mapFrame (fun p => ⟨clipByte (p.r + 19), clipByte (p.g + 10), clipByte (p.b - 33)⟩) f

/-- `reala_ace_sim` array stage: `(R-11, G+10, B+11)`, clip to bytes. -/
def realaArrayStage (f : Frame) : Frame :=
  mapFrame (fun p => ⟨clipByte (p.r - 11), clipByte (p.g + 10), clipByte (p.b + 11)⟩) f

/-- `dreamy_negative_sim` array stage: WB shift `(R+20, B-20)`, then from the
luma of the shifted pixel lift shadows (`luma < 60`: all channels
`+= (60-luma)*0.2`) and darken highlights (`luma > 200`: `-= (luma-200)*0.15`),
clip to bytes (float arithmetic). -/
def dreamyArrayStage (f : Frame) : Frame :=
  mapFrame (fun p =>
    let q : RGB := ⟨p.r + 20, p.g, p.b - 20⟩
    let l := lumaF q
    let lift : ℚ := if l < 60 then (60 - l) * (2/10) else 0
    let darken : ℚ := if 200 < l then (l - 200) * (15/100) else 0
    ⟨clipByte (q.r + lift - darken), clipByte (q.g + lift - darken),
     clipByte (q.b + lift - darken)⟩) f

/-- Run one array stage. -/
def runArrayStage : ArrayStage → Frame → Frame
  | .fuji => fujiArrayStage
  | .terracotta => terracottaArrayStage
  | .portra => portraArrayStage
  | .reala => realaArrayStage
  | .dreamy => dreamyArrayStage

/-! ## Grade transforms as step pipelines

Each `apply_filter_*` function is a straight-line sequence of the primitives
above; we record the sequence as a `List GradeStep` (in source order) and run
it with a left fold, so the step lists are the transform definitions. -/

/-- One step of a grade transform. -/
inductive GradeStep
  | contrast (factor : ℚ)
  | brightness (factor : ℚ)
  | color (factor : ℚ)
  | soften (strength : ℚ)
  | array (stage : ArrayStage)
  | noise (amount : ℤ)
deriving DecidableEq, Repr

/-- Run one grade step (noise steps consume the `noiseFn` oracle). -/
def runGradeStep (noiseFn : ℕ → ℕ → RGB) : GradeStep → Frame → Frame
  | .contrast c => enhanceContrast c
  | .brightness c => enhanceBrightness c
  | .color c => enhanceColor c
  | .soften s => applyClaritySoftening s
  | .array a => runArrayStage a
  | .noise n => fun f => addNoiseVectorized f n noiseFn

/-- Run a grade pipeline in order. -/
def runGrade (steps : List GradeStep) (noiseFn : ℕ → ℕ → RGB) (f : Frame) : Frame :=
  steps.foldl (fun fr st => runGradeStep noiseFn st fr) f

/-- `apply_filter_modern_fuji_sim`, line by line:
Contrast 0.95, Brightness 1.05, softening 0, fuji array stage (no noise). -/
def modernFujiSimSteps : List GradeStep :=
  [.contrast (95/100), .brightness (105/100), .soften 0, .array .fuji]

/-- `apply_filter_terracotta_sun_sim`, line by line:
softening 4.0 first, then Contrast 0.85, Color 1.35, mask array stage, noise 5. -/
def terracottaSunSimSteps : List GradeStep :=
  [.soften 4, .contrast (85/100), .color (135/100), .array .terracotta, .noise 5]

/-- `apply_filter_portra_800_sim` with the grain amount as a parameter
(the source uses 15; the spec's end-to-end scenario forces 0):
Brightness 1.08, Contrast 0.85, Color 1.3, softening 1.5, shift stage, noise. -/
def portra800SimStepsAmt (amount : ℤ) : List GradeStep :=
  [.brightness (108/100), .contrast (85/100), .color (13/10), .soften (15/10),
   .array .portra, .noise amount]

/-- `apply_filter_portra_800_sim`, line by line (grain amount 15). -/
def portra800SimSteps : List GradeStep := portra800SimStepsAmt 15

/-- `apply_filter_reala_ace_sim`, line by line:
Brightness 1.0, Contrast 0.8, Color 1.2, softening 2, shift stage, noise 5. -/
def realaAceSimSteps : List GradeStep :=
  [.brightness 1, .contrast (8/10), .color (12/10), .soften 2, .array .reala, .noise 5]

/-- `apply_filter_dreamy_negative_sim`, line by line:
Contrast 0.90, Color 1.50, softening 0, luma-shaping stage, noise 8. -/
def dreamyNegativeSimSteps : List GradeStep :=
  [.contrast (90/100), .color (15/10), .soften 0, .array .dreamy, .noise 8]

/-- `apply_filter_modern_fuji_sim` as a frame transform. -/
def applyFilterModernFujiSim (noiseFn : ℕ → ℕ → RGB) (f : Frame) : Frame :=
  runGrade modernFujiSimSteps noiseFn f

/-- `apply_filter_terracotta_sun_sim` as a frame transform. -/
def applyFilterTerracottaSunSim (noiseFn : ℕ → ℕ → RGB) (f : Frame) : Frame :=
  runGrade terracottaSunSimSteps noiseFn f

/-- `apply_filter_portra_800_sim` with the grain amount exposed (source: 15). -/
def applyFilterPortra800SimAmt (amount : ℤ) (noiseFn : ℕ → ℕ → RGB) (f : Frame) : Frame :=
  runGrade (portra800SimStepsAmt amount) noiseFn f

/-- `apply_filter_portra_800_sim` as a frame transform. -/
def applyFilterPortra800Sim (noiseFn : ℕ → ℕ → RGB) (f : Frame) : Frame :=
  applyFilterPortra800SimAmt 15 noiseFn f

/-- `apply_filter_reala_ace_sim` as a frame transform. -/
def applyFilterRealaAceSim (noiseFn : ℕ → ℕ → RGB) (f : Frame) : Frame :=
  runGrade realaAceSimSteps noiseFn f

/-- `apply_filter_dreamy_negative_sim` as a frame transform. -/
def applyFilterDreamyNegativeSim (noiseFn : ℕ → ℕ → RGB) (f : Frame) : Frame :=
  runGrade dreamyNegativeSimSteps noiseFn f

/-! ## Chromatic aberration and jitter primitives -/

/-- `(j + s) mod w` as a list index (`np.roll` wrap-around). -/
def wrapIdx (j : ℤ) (w : ℕ) : ℕ := (j % (w : ℤ)).toNat

/-- `apply_chromatic_aberration(arr, shift_amount)`: returns `arr` unchanged
when `shift_amount == 0`; otherwise the red channel is rolled left by
`shift_amount` columns and the blue channel rolled right (cyclic). -/
def applyChromaticAberration (arr : Frame) (shift : ℤ) : Frame :=
  if shift = 0 then arr
  else
    arr.map (fun row =>
      (List.range row.length).map (fun j =>
        ⟨(row.getD (wrapIdx ((j : ℤ) + shift) row.length) ⟨0,0,0⟩).r,
         (row.getD j ⟨0,0,0⟩).g,
         (row.getD (wrapIdx ((j : ℤ) - shift) row.length) ⟨0,0,0⟩).b⟩))

/-- The contents of the input buffer after `apply_chromatic_aberration`
returns.  The source assigns `arr[..., 0] = np.roll(arr[..., 0], -shift, 1)`
and `arr[..., 2] = np.roll(arr[..., 2], shift, 1)` into its argument, so the
caller's buffer afterwards holds exactly the function's return value (the two
writes touch disjoint channels, so their order does not matter). -/
def chromaticAberrationInputAfter (arr : Frame) (shift : ℤ) : Frame :=
  applyChromaticAberration arr shift

/-- `np.roll(arr, dx, axis=1)`: cyclically shift every row right by `dx`. -/
def rollAxis1 (dx : ℤ) (arr : Frame) : Frame :=
  arr.map (fun row =>
    (List.range row.length).map (fun j =>
      row.getD (wrapIdx ((j : ℤ) - dx) row.length) ⟨0,0,0⟩))

/-- `np.roll(arr, dy, axis=0)`: cyclically shift the rows down by `dy`. -/
def rollAxis0 (dy : ℤ) (arr : Frame) : Frame :=
  (List.range arr.length).map (fun i => arr.getD (wrapIdx ((i : ℤ) - dy) arr.length) [])

/-- `apply_jitter(arr, max_shift)` with the ambient RNG modelled as a stream
of integer draws: returns `arr` and the untouched stream when
`max_shift == 0`; otherwise consumes two draws `dx, dy` (the source draws
each from `random.randint(-max_shift, max_shift)`) and rolls the frame by
`dx` along axis 1 then `dy` along axis 0.  `np.roll` allocates, so the input
buffer is never written. -/
def applyJitter (arr : Frame) (maxShift : ℤ) (rng : List ℤ) : Frame × List ℤ :=
  if maxShift = 0 then (arr, rng)
  else
    let dx := rng.headD 0
    let dy := (rng.drop 1).headD 0
    (rollAxis0 dy (rollAxis1 dx arr), rng.drop 2)

/-- The input buffer after `apply_jitter`: the source only rebinds its local
name to fresh `np.roll` results, so the caller's buffer is unchanged. -/
def jitterInputAfter (arr : Frame) (maxShift : ℤ) (rng : List ℤ) : Frame :=
  arr

/-- The input buffer after a grade transform: `process_frame` hands the PIL
image to the filter, which builds fresh arrays (`np.array(img)` copies), so
the caller's buffer is unchanged. -/
def gradeInputAfter (noiseFn : ℕ → ℕ → RGB) (steps : List GradeStep) (arr : Frame) : Frame :=
  arr

/-- The input buffer after `add_noise_vectorized`: the source rebinds `arr`
to `arr.astype(np.int16) + noise` (a fresh array), so the input is unchanged. -/
def noiseInputAfter (arr : Frame) (amount : ℤ) (noise : ℕ → ℕ → RGB) : Frame :=
  arr

/-! ## Light leak state machine -/

/-- The four phases of `LightLeakManager.state`. -/
inductive LeakPhase
  | idle | fadeIn | active | fadeOut
deriving DecidableEq, Repr

/-- The mutable state of a `LightLeakManager`: the loaded leak buffers and
the `active_leak_idx` / `opacity` / `state` / `duration_counter` fields. -/
structure LLState where
  leaks : List Frame
  activeLeakIdx : ℤ
  opacity : ℚ
  phase : LeakPhase
  durationCounter : ℤ
deriving DecidableEq

/-- `LightLeakManager.__init__`: `active_leak_idx = -1`, `opacity = 0.0`,
`state = 'idle'`, `duration_counter = 0`, with the loaded leaks. -/
def LLState.init (leaks : List Frame) : LLState :=
  ⟨leaks, -1, 0, .idle, 0⟩

/-- One call's random draws: `u` for `random.random()`, `leakIdx` for
`random.randint(0, len(leaks) - 1)`, `holdDur` for `random.randint(10, 30)`.
Only the draws the taken branch consumes are read. -/
structure LLDraws where
  u : ℚ
  leakIdx : ℤ
  holdDur : ℤ

/-- The ranges the source's random calls guarantee for one step's draws. -/
def LLDraws.Valid (s : LLState) (d : LLDraws) : Prop :=
  (0 ≤ d.u ∧ d.u < 1) ∧
  (1 ≤ s.leaks.length → 0 ≤ d.leakIdx ∧ d.leakIdx < (s.leaks.length : ℤ)) ∧
  (10 ≤ d.holdDur ∧ d.holdDur ≤ 30)

/-- The state-machine part of `LightLeakManager.apply` (lines 171-196):
no-op when no leaks are loaded; otherwise one transition of the
idle → fade_in → active → fade_out cycle, exactly as in the source. -/
def llStep (s : LLState) (d : LLDraws) : LLState :=
  if s.leaks.isEmpty then s
  else
    match s.phase with
    | .idle =>
        if d.u < 2/100 then
          { s with phase := .fadeIn, activeLeakIdx := d.leakIdx, opacity := 0 }
        else s
    | .fadeIn =>
        let o := s.opacity + 5/100
        if 8/10 ≤ o then { s with opacity := o, phase := .active, durationCounter := d.holdDur }
        else { s with opacity := o }
    | .active =>
        let c := s.durationCounter - 1
        if c ≤ 0 then { s with durationCounter := c, phase := .fadeOut }
        else { s with durationCounter := c }
    | .fadeOut =>
        let o := s.opacity - 3/100
        if o ≤ 0 then { s with opacity := 0, phase := .idle }
        else { s with opacity := o }

/-- Additive leak blend (lines 199-205): `clip(frame + leak * opacity)`,
computed in floats and truncated back to bytes. -/
def llBlend (frame leak : Frame) (opacity : ℚ) : Frame :=
  frame.mapIdx (fun i row => row.mapIdx (fun j p =>
    let l := (leak.getD i []).getD j ⟨0,0,0⟩
    ⟨clipByte (p.r + l.r * opacity), clipByte (p.g + l.g * opacity),
     clipByte (p.b + l.b * opacity)⟩))

/-- `LightLeakManager.apply(frame_arr)` in full: update the state machine,
then, if `opacity > 0.01`, blend `self.leaks[self.active_leak_idx]`
additively; returns the new state and the output frame. -/
def llApply (s : LLState) (d : LLDraws) (frame : Frame) : LLState × Frame :=
  if s.leaks.isEmpty then (s, frame)
  else
    let s' := llStep s d
    if 1/100 < s'.opacity then
      (s', llBlend frame (s'.leaks.getD s'.activeLeakIdx.toNat []) s'.opacity)
    else (s', frame)

/-- The input buffer after `LightLeakManager.apply`: the blend starts from
`frame_arr.astype(np.float32)`, a fresh copy, so the input is unchanged. -/
def llApplyInputAfter (s : LLState) (d : LLDraws) (frame : Frame) : Frame :=
  frame

/-- States reachable from construction by `apply` calls whose draws are in
the ranges the source's `random` calls guarantee. -/
inductive LLReachable (leaks : List Frame) : LLState → Prop
  | init : LLReachable leaks (LLState.init leaks)
  | step {s : LLState} (d : LLDraws) : LLReachable leaks s → d.Valid s →
      LLReachable leaks (llStep s d)

/-- Iterated steps under a draw stream (call `n` uses `ds n`). -/
def llSteps (ds : ℕ → LLDraws) : ℕ → LLState → LLState
  | 0, s => s
  | n + 1, s => llSteps (fun k => ds (k + 1)) n (llStep s (ds 0))

instance (s : LLState) (d : LLDraws) : Decidable (d.Valid s) := by
  unfold LLDraws.Valid; infer_instance

/-- The inductive invariant of the light-leak state machine: the opacity is
0 in idle, a step count times 0.05 during fade-in (at most 15 steps taken
while still fading), exactly 0.8 while active, 0.8 minus a step count times
0.03 during fade-out, and outside idle the active leak index is in range. -/
def llInv (s : LLState) : Prop :=
  (s.phase = .idle → s.opacity = 0) ∧
  (s.phase = .fadeIn → ∃ k : ℕ, k ≤ 15 ∧ s.opacity = (k : ℚ) * (5/100)) ∧
  (s.phase = .active → s.opacity = 8/10) ∧
  (s.phase = .fadeOut → ∃ k : ℕ, k ≤ 26 ∧ s.opacity = 8/10 - (k : ℚ) * (3/100)) ∧
  (s.phase ≠ .idle → 0 ≤ s.activeLeakIdx ∧ s.activeLeakIdx < (s.leaks.length : ℤ))

/-! ## IEEE-754 binary64 model of the opacity arithmetic

The program stores `self.opacity` as a Python float and accumulates it with
`+= 0.05` / `-= 0.03`.  `llStep` above reads those updates as exact real
(rational) arithmetic; the definitions below model them as IEEE-754 binary64
operations instead — every default-rounded double operation returns the
representable value nearest to the exact result, ties to even — so that
properties sensitive to the float rounding (the opacity overshooting 0.8 on
entering the active phase) can be settled against the program's actual
arithmetic.  All values reached here lie well inside the normal range. -/

/-- Round to the nearest integer, ties to even (IEEE-754 default rounding). -/
def roundHalfEven (q : ℚ) : ℤ :=
  let n := ⌊q⌋
  let f := q - (n : ℚ)
  if f < 1/2 then n else if 1/2 < f then n + 1 else if n % 2 = 0 then n else n + 1

/-- Normalize a positive rational to a significand in `[2^52, 2^53)` times a
power-of-two scale, then round the significand half-to-even (fuel-bounded
structural recursion; fuel 1200 covers the whole double range). -/
def fl64Norm : ℕ → ℚ → ℚ → ℚ
  | 0, q, scale => ((roundHalfEven q : ℤ) : ℚ) * scale
  | fuel + 1, q, scale =>
    if q < 2^52 then fl64Norm fuel (2 * q) (scale / 2)
    else if 2^53 ≤ q then fl64Norm fuel (q / 2) (2 * scale)
    else ((roundHalfEven q : ℤ) : ℚ) * scale

/-- The IEEE-754 binary64 double nearest to a rational (normal range,
round-to-nearest, ties to even). -/
def fl64 (q : ℚ) : ℚ :=
  if q = 0 then 0
  else if q < 0 then -fl64Norm 1200 (-q) 1
  else fl64Norm 1200 q 1

/-- The double literal `0.05` of `self.opacity += 0.05`. -/
def f005 : ℚ := fl64 (5/100)

/-- The double literal `0.03` of `self.opacity -= 0.03`. -/
def f003 : ℚ := fl64 (3/100)

/-- The double literal `0.8` of `if self.opacity >= 0.8`. -/
def f08 : ℚ := fl64 (8/10)

/-- The double literal `0.02` of the idle trigger comparison. -/
def f002 : ℚ := fl64 (2/100)

/-- The state-machine part of `LightLeakManager.apply` with the opacity
arithmetic in IEEE-754 binary64: each `+=` / `-=` rounds the exact sum of
its double operands; comparisons between doubles are exact.  Identical to
`llStep` apart from the rounding of the opacity updates and the use of the
double constants. -/
def llStepF (s : LLState) (d : LLDraws) : LLState :=
  if s.leaks.isEmpty then s
  else
    match s.phase with
    | .idle =>
        if d.u < f002 then
          { s with phase := .fadeIn, activeLeakIdx := d.leakIdx, opacity := 0 }
        else s
    | .fadeIn =>
        let o := fl64 (s.opacity + f005)
        if f08 ≤ o then { s with opacity := o, phase := .active, durationCounter := d.holdDur }
        else { s with opacity := o }
    | .active =>
        let c := s.durationCounter - 1
        if c ≤ 0 then { s with durationCounter := c, phase := .fadeOut }
        else { s with durationCounter := c }
    | .fadeOut =>
        let o := fl64 (s.opacity - f003)
        if o ≤ 0 then { s with opacity := 0, phase := .idle }
        else { s with opacity := o }

/-- States reachable from construction under the binary64 semantics. -/
inductive LLReachableF (leaks : List Frame) : LLState → Prop
  | init : LLReachableF leaks (LLState.init leaks)
  | step {s : LLState} (d : LLDraws) : LLReachableF leaks s → d.Valid s →
      LLReachableF leaks (llStepF s d)

/-- The opacity after `k` binary64 fade-in increments from 0. -/
def opFadeIn (k : ℕ) : ℚ := (fun o => fl64 (o + f005))^[k] 0

/-- The opacity after `k` binary64 fade-out decrements from the fade-in
maximum (16 increments, the value the active phase holds). -/
def opFadeOut (k : ℕ) : ℚ := (fun o => fl64 (o - f003))^[k] (opFadeIn 16)

/-- The inductive invariant of the binary64 state machine: opacity 0 in
idle, `k ≤ 15` rounded increments in fade-in, the 16-increment maximum while
active, and `k ≤ 26` rounded decrements from that maximum in fade-out. -/
def llInvF (s : LLState) : Prop :=
  (s.phase = .idle → s.opacity = 0) ∧
  (s.phase = .fadeIn → ∃ k : ℕ, k ≤ 15 ∧ s.opacity = opFadeIn k) ∧
  (s.phase = .active → s.opacity = opFadeIn 16) ∧
  (s.phase = .fadeOut → ∃ k : ℕ, k ≤ 26 ∧ s.opacity = opFadeOut k)

/-! ## Overlay compositing (PIL `Image.alpha_composite`)

`process_frame` composites the overlay built once by
`create_timestamp_overlay` onto each frame via
`img.convert('RGBA')` / `Image.alpha_composite(img, overlay_img)` /
`img.convert('RGB')`.  PIL's `AlphaComposite.c` works on premultiplied
integer coefficients with 7 extra precision bits and the
`SHIFTFORDIV255` rounding trick; we embed that arithmetic exactly.
The overlay's pixel contents depend on font rasterization (an environment
concern); the source draws its glow layer in `HALO_COLOR = (255, 120, 0, 180)`
and then Gaussian-blurs it, so the overlay contains semi-transparent pixels. -/

/-- One RGBA pixel (byte channels). -/
structure RGBA where
  r : ℕ
  g : ℕ
  b : ℕ
  a : ℕ
deriving DecidableEq, Repr

/-- One RGB pixel with byte channels (a frame as PIL sees it). -/
structure RGB8 where
  r : ℕ
  g : ℕ
  b : ℕ
deriving DecidableEq, Repr

abbrev RGBAFrame := List (List RGBA)
abbrev RGB8Frame := List (List RGB8)

/-- PIL's `SHIFTFORDIV255(a) = ((a >> 8) + a) >> 8`. -/
def shiftForDiv255 (x : ℕ) : ℕ := ((x >>> 8) + x) >>> 8

/-- `AlphaComposite.c`: `outa255 = src->a * 255 + dst->a * (255 - src->a)`
(the output alpha scaled by 255). -/
def ccOuta255 (dst src : RGBA) : ℕ := src.a * 255 + dst.a * (255 - src.a)

/-- `AlphaComposite.c`: `coef1 = src->a * 255 * 255 * (1 << 7) / outa255`. -/
def ccCoef1 (dst src : RGBA) : ℕ := src.a * 255 * 255 * 128 / ccOuta255 dst src

/-- `AlphaComposite.c`: `coef2 = 255 * (1 << 7) - coef1`. -/
def ccCoef2 (dst src : RGBA) : ℕ := 255 * 128 - ccCoef1 dst src

/-- `AlphaComposite.c` per channel:
`SHIFTFORDIV255(src->c * coef1 + dst->c * coef2 + (0x80 << 7)) >> 7`. -/
def ccChan (coef1 coef2 sc dc : ℕ) : ℕ :=
  shiftForDiv255 (sc * coef1 + dc * coef2 + 128 * 128) >>> 7

/-- `AlphaComposite.c`: composite `src` over `dst` for one pixel. -/
def compositePixel (dst src : RGBA) : RGBA :=
  if src.a = 0 then dst
  else
    ⟨ccChan (ccCoef1 dst src) (ccCoef2 dst src) src.r dst.r,
     ccChan (ccCoef1 dst src) (ccCoef2 dst src) src.g dst.g,
     ccChan (ccCoef1 dst src) (ccCoef2 dst src) src.b dst.b,
     shiftForDiv255 (ccOuta255 dst src + 128)⟩

/-- `Image.alpha_composite(dst, src)` over whole images. -/
def alphaComposite (dst src : RGBAFrame) : RGBAFrame :=
  List.zipWith (List.zipWith compositePixel) dst src

/-- `img.convert('RGBA')` on one RGB pixel: alpha 255. -/
def rgbaOfRGB8 (p : RGB8) : RGBA := ⟨p.r, p.g, p.b, 255⟩

/-- `img.convert('RGB')` on one RGBA pixel: drop the alpha. -/
def rgb8OfRGBA (p : RGBA) : RGB8 := ⟨p.r, p.g, p.b⟩

/-- `img.convert('RGBA')` on an RGB frame: alpha 255 everywhere. -/
def toRGBA (f : RGB8Frame) : RGBAFrame := f.map (List.map rgbaOfRGB8)

/-- `img.convert('RGB')` on an RGBA frame: drop the alpha channel. -/
def toRGB (f : RGBAFrame) : RGB8Frame := f.map (List.map rgb8OfRGBA)

/-- Step 3 of `process_frame`: convert to RGBA, composite the overlay,
convert back to RGB. -/
def compositeOverlayOnce (base : RGB8Frame) (overlay : RGBAFrame) : RGB8Frame :=
  toRGB (alphaComposite (toRGBA base) overlay)

/-- Compositing the same overlay a second time onto the result. -/
def compositeOverlayTwice (base : RGB8Frame) (overlay : RGBAFrame) : RGB8Frame :=
  compositeOverlayOnce (compositeOverlayOnce base overlay) overlay

/-- The input buffer after the overlay compositing stage:
`Image.alpha_composite` allocates a fresh image, so the base is unchanged. -/
def compositeInputAfter (base : RGB8Frame) (overlay : RGBAFrame) : RGB8Frame :=
  base

/-- The halo color the glow layer is drawn in: `(255, 120, 0, 180)`. -/
def haloColor : RGBA := ⟨255, 120, 0, 180⟩

/-- An overlay pixel that is fully transparent or fully opaque (with valid
byte channels). -/
def BinaryAlpha (p : RGBA) : Prop :=
  p.a = 0 ∨ (p.a = 255 ∧ p.r ≤ 255 ∧ p.g ≤ 255 ∧ p.b ≤ 255)

instance (p : RGBA) : Decidable (BinaryAlpha p) := by unfold BinaryAlpha; infer_instance

/-- One row of `compositeOverlayOnce`. -/
def compositeRowOnce (br : List RGB8) (orow : List RGBA) : List RGB8 :=
  (List.zipWith compositePixel (br.map rgbaOfRGB8) orow).map rgb8OfRGBA

/-! ## Step-order predicate (spec §4.1 order-of-operations claim) -/

/-- The rank of a grade step in the order the spec prescribes:
PIL enhancements (0), softening (1), array math (2), noise (3). -/
def stepRank : GradeStep → ℕ
  | .contrast _ => 0
  | .brightness _ => 0
  | .color _ => 0
  | .soften _ => 1
  | .array _ => 2
  | .noise _ => 3

/-- A pipeline follows the spec's order iff its step ranks never decrease. -/
def stepsOrdered : List GradeStep → Bool
  | [] => true
  | [_] => true
  | a :: b :: t => decide (stepRank a ≤ stepRank b) && stepsOrdered (b :: t)

/-! ## Concrete frames used by the end-to-end scenarios -/

/-- A 2×2 frame of pure white pixels. -/
def white2x2 : Frame := [[⟨255,255,255⟩, ⟨255,255,255⟩], [⟨255,255,255⟩, ⟨255,255,255⟩]]

/-- A 2×2 frame of mid-gray pixels. -/
def gray2x2 : Frame := [[⟨128,128,128⟩, ⟨128,128,128⟩], [⟨128,128,128⟩, ⟨128,128,128⟩]]

/-- A noise oracle drawing 0 everywhere. -/
def zeroNoise : ℕ → ℕ → RGB := fun _ _ => ⟨0, 0, 0⟩


/-- `true` iff every noise step of the pipeline has non-positive amount
(such steps are no-ops by the `amount <= 0` guard). -/
def noiseStepsTrivial : List GradeStep → Bool
  | [] => true
  | .noise n :: t => decide (n ≤ 0) && noiseStepsTrivial t
  | _ :: t => noiseStepsTrivial t

/-- A rational that is an integer (an `int16` / float-held integer value). -/
def IsIntVal (q : ℚ) : Prop := q.den = 1

/-- A valid byte channel value: integral and in `[0, 255]`. -/
def IsByte (q : ℚ) : Prop := IsIntVal q ∧ 0 ≤ q ∧ q ≤ 255

/-- All three channels of a pixel are valid byte values. -/
def ByteRGB (p : RGB) : Prop := IsByte p.r ∧ IsByte p.g ∧ IsByte p.b

/-- One per-pixel noise draw of `np.random.randint(-amount, amount + 1, ...)`:
three integers, each in `[-amount, amount]`. -/
def NoiseDrawOK (amount : ℤ) (d : RGB) : Prop :=
  (IsIntVal d.r ∧ -(amount : ℚ) ≤ d.r ∧ d.r ≤ (amount : ℚ)) ∧
  (IsIntVal d.g ∧ -(amount : ℚ) ≤ d.g ∧ d.g ≤ (amount : ℚ)) ∧
  (IsIntVal d.b ∧ -(amount : ℚ) ≤ d.b ∧ d.b ≤ (amount : ℚ))

instance (q : ℚ) : Decidable (IsIntVal q) := by unfold IsIntVal; infer_instance

instance (q : ℚ) : Decidable (IsByte q) := by unfold IsByte; infer_instance

instance (p : RGB) : Decidable (ByteRGB p) := by unfold ByteRGB; infer_instance

instance (amount : ℤ) (d : RGB) : Decidable (NoiseDrawOK amount d) := by
  unfold NoiseDrawOK; infer_instance

/-!
## Helper lemmas
-/

/-- A pipeline whose noise steps are all no-ops computes the same frame under
any two noise oracles. -/
theorem runGrade_congr_noise (nf nf' : ℕ → ℕ → RGB) :
    ∀ (steps : List GradeStep), noiseStepsTrivial steps = true →
      ∀ f : Frame, runGrade steps nf f = runGrade steps nf' f
  | [], _, _ => rfl
  | st :: t, h, f => by
    have ht : noiseStepsTrivial t = true := by
      cases st <;> simp only [noiseStepsTrivial, Bool.and_eq_true] at h <;> tauto
    have hstep : runGradeStep nf st f = runGradeStep nf' st f := by
      cases st <;> simp only [runGradeStep]
      case noise n =>
        have hn : n ≤ 0 := by
          simp only [noiseStepsTrivial, Bool.and_eq_true, decide_eq_true_eq] at h
          exact h.1
        simp [addNoiseVectorized, if_pos hn]
    show runGrade t nf (runGradeStep nf st f) = runGrade t nf' (runGradeStep nf' st f)
    rw [hstep]
    exact runGrade_congr_noise nf nf' t ht _

/-- Adding an integral draw bounded by `amount` to a byte value and clipping
keeps a byte value and moves the channel by at most `amount`. -/
theorem clipByte_noise_bound (amount : ℤ) (v d : ℚ) (hv : IsByte v)
    (hd : IsIntVal d) (h1 : -(amount : ℚ) ≤ d) (h2 : d ≤ (amount : ℚ)) :
    IsByte (clipByte (v + d)) ∧ |clipByte (v + d) - v| ≤ (amount : ℚ) := by
  obtain ⟨hvint, hv0, hv255⟩ := hv
  have hvq : ((v.num : ℚ)) = v := Rat.coe_int_num_of_den_eq_one hvint
  have hdq : ((d.num : ℚ)) = d := Rat.coe_int_num_of_den_eq_one hd
  have hsum : v + d = ((v.num + d.num : ℤ) : ℚ) := by push_cast [hvq, hdq]; ring
  unfold clipByte
  split_ifs with hle hge
  · refine ⟨⟨rfl, le_refl 0, by norm_num⟩, ?_⟩
    rw [abs_le]
    constructor <;> linarith
  · refine ⟨⟨rfl, by norm_num, le_refl 255⟩, ?_⟩
    rw [abs_le]
    push_neg at hle
    constructor <;> linarith
  · push_neg at hle hge
    have hfl : ((⌊v + d⌋ : ℤ) : ℚ) = v + d := by rw [hsum, Int.floor_intCast]
    rw [hfl]
    refine ⟨⟨?_, by linarith, by linarith⟩, ?_⟩
    · show (v + d).den = 1
      rw [hsum]
      exact Rat.den_intCast _
    · have : v + d - v = d := by ring
      rw [this, abs_le]
      exact ⟨h1, h2⟩

/-- The pixel of `add_noise_vectorized` at an in-range index. -/
theorem addNoise_get (arr : Frame) (amount : ℤ) (noise : ℕ → ℕ → RGB)
    (hpos : 0 < amount) (i j : ℕ) (hi : i < arr.length)
    (hj : j < (arr.getD i []).length) :
    Frame.get (addNoiseVectorized arr amount noise) i j =
      ⟨clipByte ((Frame.get arr i j).r + (noise i j).r),
       clipByte ((Frame.get arr i j).g + (noise i j).g),
       clipByte ((Frame.get arr i j).b + (noise i j).b)⟩ := by
  have hj' : j < arr[i].length := by
    rwa [List.getD_eq_getElem?_getD, List.getElem?_eq_getElem hi, Option.getD_some] at hj
  unfold addNoiseVectorized Frame.get
  rw [if_neg (by omega)]
  simp only [List.getD_eq_getElem?_getD, List.getElem?_mapIdx,
    List.getElem?_eq_getElem hi, List.getElem?_eq_getElem hj',
    Option.map_some', Option.getD_some, List.getElem_mapIdx]

/-- For a fully opaque source pixel the scaled output alpha is `255 * 255`. -/
theorem ccOuta255_srcFull (dst src : RGBA) (h : src.a = 255) :
    ccOuta255 dst src = 65025 := by
  unfold ccOuta255
  rw [h]
  omega

/-- For a fully opaque source pixel `coef1` is the full weight `255 * 128`. -/
theorem ccCoef1_srcFull (dst src : RGBA) (h : src.a = 255) :
    ccCoef1 dst src = 32640 := by
  unfold ccCoef1
  rw [ccOuta255_srcFull dst src h, h]

/-- For a fully opaque source pixel `coef2` vanishes. -/
theorem ccCoef2_srcFull (dst src : RGBA) (h : src.a = 255) :
    ccCoef2 dst src = 0 := by
  unfold ccCoef2
  rw [ccCoef1_srcFull dst src h]

/-- The channel formula with full source weight is the identity on bytes. -/
theorem ccChan_srcFull (sc dc : ℕ) (h : sc ≤ 255) : ccChan 32640 0 sc dc = sc := by
  unfold ccChan shiftForDiv255
  simp only [Nat.shiftRight_eq_div_pow]
  omega

/-- Compositing a fully transparent source pixel returns the destination. -/
theorem compositePixel_alpha0 (dst src : RGBA) (h : src.a = 0) :
    compositePixel dst src = dst := by
  unfold compositePixel
  rw [if_pos h]

/-- Compositing a fully opaque source pixel returns the source. -/
theorem compositePixel_alpha255 (dst src : RGBA) (h : src.a = 255)
    (hr : src.r ≤ 255) (hg : src.g ≤ 255) (hb : src.b ≤ 255) :
    compositePixel dst src = ⟨src.r, src.g, src.b, 255⟩ := by
  unfold compositePixel
  rw [if_neg (by omega), ccCoef1_srcFull dst src h, ccCoef2_srcFull dst src h,
    ccOuta255_srcFull dst src h, ccChan_srcFull src.r dst.r hr,
    ccChan_srcFull src.g dst.g hg, ccChan_srcFull src.b dst.b hb]
  have ha : shiftForDiv255 (65025 + 128) = 255 := by decide
  rw [ha]

/-- Pixel-level idempotence of overlay compositing through the RGB
round-trip, for binary-alpha overlay pixels. -/
theorem compositePixel_idem (d : RGB8) (s : RGBA) (h : BinaryAlpha s) :
    rgb8OfRGBA (compositePixel
        (rgbaOfRGB8 (rgb8OfRGBA (compositePixel (rgbaOfRGB8 d) s))) s) =
      rgb8OfRGBA (compositePixel (rgbaOfRGB8 d) s) := by
  rcases h with h0 | ⟨h255, hr, hg, hb⟩
  · rw [compositePixel_alpha0 _ _ h0, compositePixel_alpha0 _ _ h0]
    rfl
  · rw [compositePixel_alpha255 _ _ h255 hr hg hb,
      compositePixel_alpha255 _ _ h255 hr hg hb]

/-- `compositeOverlayOnce` row by row. -/
theorem compositeOverlayOnce_eq : ∀ (base : RGB8Frame) (ov : RGBAFrame),
    compositeOverlayOnce base ov = List.zipWith compositeRowOnce base ov
  | [], ov => by cases ov <;> rfl
  | r :: t, [] => rfl
  | r :: t, orow :: ot => by
    show compositeRowOnce r orow :: compositeOverlayOnce t ot =
        compositeRowOnce r orow :: List.zipWith compositeRowOnce t ot
    rw [compositeOverlayOnce_eq t ot]

/-- Row-level idempotence of overlay compositing for binary-alpha rows. -/
theorem compositeRowOnce_idem : ∀ (br : List RGB8) (orow : List RGBA),
    (∀ p ∈ orow, BinaryAlpha p) →
    compositeRowOnce (compositeRowOnce br orow) orow = compositeRowOnce br orow
  | [], orow, _ => by cases orow <;> rfl
  | b :: bt, [], _ => rfl
  | b :: bt, s :: st, h => by
    have hp : BinaryAlpha s := h s (List.mem_cons_self s st)
    have ht : ∀ p ∈ st, BinaryAlpha p := fun p hm => h p (List.mem_cons_of_mem _ hm)
    show rgb8OfRGBA (compositePixel
          (rgbaOfRGB8 (rgb8OfRGBA (compositePixel (rgbaOfRGB8 b) s))) s) ::
        compositeRowOnce (compositeRowOnce bt st) st =
      rgb8OfRGBA (compositePixel (rgbaOfRGB8 b) s) :: compositeRowOnce bt st
    rw [compositePixel_idem b s hp, compositeRowOnce_idem bt st ht]

/-- `llStep` never touches the loaded leak buffers. -/
theorem llStep_leaks (s : LLState) (d : LLDraws) : (llStep s d).leaks = s.leaks := by
  rcases s with ⟨leaks, idx, op, ph, dc⟩
  cases ph <;> simp only [llStep] <;> split_ifs <;> rfl

/-- The invariant holds at construction. -/
theorem llInv_init (leaks : List Frame) : llInv (LLState.init leaks) := by
  refine ⟨fun _ => rfl, fun h => LeakPhase.noConfusion h, fun h => LeakPhase.noConfusion h,
    fun h => LeakPhase.noConfusion h, fun h => absurd rfl h⟩

/-- One step of the state machine preserves the invariant. -/
theorem llInv_step (s : LLState) (d : LLDraws) (hv : d.Valid s) (hi : llInv s) :
    llInv (llStep s d) := by
  obtain ⟨h1, h2, h3, h4, h5⟩ := hi
  obtain ⟨hu, hidx, hdur⟩ := hv
  rcases s with ⟨leaks, idx, op, ph, dc⟩
  by_cases he : leaks.isEmpty
  · simpa [llStep, he] using ⟨h1, h2, h3, h4, h5⟩
  · have hlen : 1 ≤ leaks.length := by
      cases leaks with
      | nil => simp at he
      | cons a t => simp
    cases ph with
    | idle =>
      simp only [llStep, he, Bool.false_eq_true, if_false]
      split_ifs with htrig
      · exact ⟨fun h => LeakPhase.noConfusion h,
          fun _ => ⟨0, by norm_num, by norm_num⟩,
          fun h => LeakPhase.noConfusion h,
          fun h => LeakPhase.noConfusion h,
          fun _ => hidx hlen⟩
      · exact ⟨h1, h2, h3, h4, h5⟩
    | fadeIn =>
      obtain ⟨k, hk15, hko⟩ := h2 rfl
      have hop : op = (k : ℚ) * (5/100) := hko
      simp only [llStep, he, Bool.false_eq_true, if_false]
      split_ifs with h08
      · refine ⟨fun h => LeakPhase.noConfusion h, fun h => LeakPhase.noConfusion h,
          fun _ => ?_, fun h => LeakPhase.noConfusion h,
          fun _ => h5 (fun h => LeakPhase.noConfusion h)⟩
        have h16 : (16 : ℚ) ≤ (k : ℚ) + 1 := by
          rw [hop] at h08
          linarith
        have hk16 : (15 : ℚ) ≤ (k : ℚ) := by linarith
        have hk15' : (k : ℚ) ≤ 15 := by exact_mod_cast hk15
        have : (k : ℚ) = 15 := le_antisymm hk15' hk16
        show op + 5/100 = 8/10
        rw [hop, this]
        norm_num
      · refine ⟨fun h => LeakPhase.noConfusion h, fun _ => ?_,
          fun h => LeakPhase.noConfusion h, fun h => LeakPhase.noConfusion h,
          fun _ => h5 (fun h => LeakPhase.noConfusion h)⟩
        refine ⟨k + 1, ?_, ?_⟩
        · have hlt : ((k : ℚ) + 1) * (5/100) < 8/10 := by
            rw [hop] at h08
            push_neg at h08
            linarith
          have : ((k : ℚ) + 1) < 16 := by linarith
          have : (k : ℕ) + 1 < 16 := by exact_mod_cast this
          omega
        · show op + 5/100 = ((k + 1 : ℕ) : ℚ) * (5/100)
          rw [hop]
          push_cast
          ring
    | active =>
      have hop : op = 8/10 := h3 rfl
      simp only [llStep, he, Bool.false_eq_true, if_false]
      split_ifs with hc
      · exact ⟨fun h => LeakPhase.noConfusion h, fun h => LeakPhase.noConfusion h,
          fun h => LeakPhase.noConfusion h,
          fun _ => ⟨0, by norm_num, by rw [hop]; norm_num⟩,
          fun _ => h5 (fun h => LeakPhase.noConfusion h)⟩
      · exact ⟨fun h => LeakPhase.noConfusion h, fun h => LeakPhase.noConfusion h,
          fun _ => hop, fun h => LeakPhase.noConfusion h,
          fun _ => h5 (fun h => LeakPhase.noConfusion h)⟩
    | fadeOut =>
      obtain ⟨k, hk26, hko⟩ := h4 rfl
      have hop : op = 8/10 - (k : ℚ) * (3/100) := hko
      simp only [llStep, he, Bool.false_eq_true, if_false]
      split_ifs with h0
      · exact ⟨fun _ => rfl, fun h => LeakPhase.noConfusion h,
          fun h => LeakPhase.noConfusion h, fun h => LeakPhase.noConfusion h,
          fun h => absurd rfl h⟩
      · refine ⟨fun h => LeakPhase.noConfusion h, fun h => LeakPhase.noConfusion h,
          fun h => LeakPhase.noConfusion h, fun _ => ?_,
          fun _ => h5 (fun h => LeakPhase.noConfusion h)⟩
        refine ⟨k + 1, ?_, ?_⟩
        · have hgt : (0 : ℚ) < op - 3/100 := by
            push_neg at h0
            linarith
          have : ((k : ℚ) + 1) * (3/100) < 8/10 := by
            rw [hop] at hgt
            linarith
          have : ((k : ℚ) + 1) < 27 := by linarith
          have : (k : ℕ) + 1 < 27 := by exact_mod_cast this
          omega
        · show op - 3/100 = 8/10 - ((k + 1 : ℕ) : ℚ) * (3/100)
          rw [hop]
          push_cast
          ring

/-- Every reachable state satisfies the invariant. -/
theorem llInv_reachable (leaks : List Frame) (s : LLState)
    (hs : LLReachable leaks s) : llInv s := by
  induction hs with
  | init => exact llInv_init leaks
  | step d _ hv ih => exact llInv_step _ d hv ih

/-- The idle branch of `LightLeakManager.apply` (2% trigger). -/
theorem llStep_idle (s : LLState) (d : LLDraws) (hne : s.leaks ≠ [])
    (hph : s.phase = .idle) :
    llStep s d = if d.u < 2/100
      then { s with phase := .fadeIn, activeLeakIdx := d.leakIdx, opacity := 0 }
      else s := by
  rcases s with ⟨leaks, idx, op, ph, dc⟩
  cases ph
  case idle => cases leaks with
    | nil => exact absurd rfl hne
    | cons a t => rfl
  all_goals exact LeakPhase.noConfusion hph

/-- The fade-in branch of `LightLeakManager.apply`. -/
theorem llStep_fadeIn (s : LLState) (d : LLDraws) (hne : s.leaks ≠ [])
    (hph : s.phase = .fadeIn) :
    llStep s d = if 8/10 ≤ s.opacity + 5/100
      then { s with opacity := s.opacity + 5/100, phase := .active,
                    durationCounter := d.holdDur }
      else { s with opacity := s.opacity + 5/100 } := by
  rcases s with ⟨leaks, idx, op, ph, dc⟩
  cases ph
  case fadeIn => cases leaks with
    | nil => exact absurd rfl hne
    | cons a t => rfl
  all_goals exact LeakPhase.noConfusion hph

/-- The active branch of `LightLeakManager.apply` (hold counter). -/
theorem llStep_active (s : LLState) (d : LLDraws) (hne : s.leaks ≠ [])
    (hph : s.phase = .active) :
    llStep s d = if s.durationCounter - 1 ≤ 0
      then { s with durationCounter := s.durationCounter - 1, phase := .fadeOut }
      else { s with durationCounter := s.durationCounter - 1 } := by
  rcases s with ⟨leaks, idx, op, ph, dc⟩
  cases ph
  case active => cases leaks with
    | nil => exact absurd rfl hne
    | cons a t => rfl
  all_goals exact LeakPhase.noConfusion hph

/-- The fade-out branch of `LightLeakManager.apply`. -/
theorem llStep_fadeOut (s : LLState) (d : LLDraws) (hne : s.leaks ≠ [])
    (hph : s.phase = .fadeOut) :
    llStep s d = if s.opacity - 3/100 ≤ 0
      then { s with opacity := 0, phase := .idle }
      else { s with opacity := s.opacity - 3/100 } := by
  rcases s with ⟨leaks, idx, op, ph, dc⟩
  cases ph
  case fadeOut => cases leaks with
    | nil => exact absurd rfl hne
    | cons a t => rfl
  all_goals exact LeakPhase.noConfusion hph

/-- From an active state with positive counter `k`, the phase stays active
(with the opacity untouched) for `k` calls, the `k`-th call entering
fade-out. -/
theorem llSteps_active_hold (k : ℕ) (s : LLState) (ds : ℕ → LLDraws)
    (hne : s.leaks ≠ []) (hph : s.phase = .active)
    (hdc : s.durationCounter = (k : ℤ)) (hk : 1 ≤ k) :
    (∀ j, j < k → (llSteps ds j s).phase = .active) ∧
    (llSteps ds k s).phase = .fadeOut ∧
    (∀ j, j ≤ k → (llSteps ds j s).opacity = s.opacity) := by
  induction k generalizing s ds with
  | zero => omega
  | succ k ih =>
    have hstep := llStep_active s (ds 0) hne hph
    rcases Nat.eq_zero_or_pos k with hk0 | hkpos
    · subst hk0
      have h1 : llStep s (ds 0) =
          { s with durationCounter := s.durationCounter - 1, phase := .fadeOut } := by
        rw [hstep, if_pos (by rw [hdc]; norm_num)]
      refine ⟨?_, ?_, ?_⟩
      · intro j hj
        interval_cases j
        exact hph
      · show (llStep s (ds 0)).phase = .fadeOut
        rw [h1]
      · intro j hj
        interval_cases j
        · rfl
        · show (llStep s (ds 0)).opacity = s.opacity
          rw [h1]
    · have hcond : ¬ s.durationCounter - 1 ≤ 0 := by
        rw [hdc]
        push_cast
        omega
      have h1 : llStep s (ds 0) = { s with durationCounter := s.durationCounter - 1 } := by
        rw [hstep, if_neg hcond]
      have hne' : (llStep s (ds 0)).leaks ≠ [] := by rw [llStep_leaks]; exact hne
      have hph' : (llStep s (ds 0)).phase = .active := by rw [h1]; exact hph
      have hdc' : (llStep s (ds 0)).durationCounter = (k : ℤ) := by
        rw [h1]
        show s.durationCounter - 1 = (k : ℤ)
        rw [hdc]
        push_cast
        ring
      obtain ⟨ha, hb, hc⟩ := ih (llStep s (ds 0)) (fun n => ds (n + 1)) hne' hph' hdc' hkpos
      refine ⟨?_, ?_, ?_⟩
      · intro j hj
        cases j with
        | zero => exact hph
        | succ n =>
          show (llSteps (fun m => ds (m + 1)) n (llStep s (ds 0))).phase = .active
          exact ha n (by omega)
      · show (llSteps (fun m => ds (m + 1)) k (llStep s (ds 0))).phase = .fadeOut
        exact hb
      · intro j hj
        cases j with
        | zero => rfl
        | succ n =>
          show (llSteps (fun m => ds (m + 1)) n (llStep s (ds 0))).opacity = s.opacity
          rw [hc n (by omega), h1]

/-- `llStepF` never touches the loaded leak buffers. -/
theorem llStepF_leaks (s : LLState) (d : LLDraws) : (llStepF s d).leaks = s.leaks := by
  rcases s with ⟨leaks, idx, op, ph, dc⟩
  cases ph <;> simp only [llStepF] <;> split_ifs <;> rfl

/-- One more binary64 fade-in increment. -/
theorem opFadeIn_succ (k : ℕ) : opFadeIn (k + 1) = fl64 (opFadeIn k + f005) := by
  unfold opFadeIn
  rw [Function.iterate_succ_apply']

/-- One more binary64 fade-out decrement. -/
theorem opFadeOut_succ (k : ℕ) : opFadeOut (k + 1) = fl64 (opFadeOut k - f003) := by
  unfold opFadeOut
  rw [Function.iterate_succ_apply']

/-- Zero fade-out decrements: the held fade-in maximum. -/
theorem opFadeOut_zero : opFadeOut 0 = opFadeIn 16 := by
  unfold opFadeOut
  rw [Function.iterate_zero_apply]

/-- The binary64 invariant holds at construction. -/
theorem llInvF_init (leaks : List Frame) : llInvF (LLState.init leaks) :=
  ⟨fun _ => rfl, fun h => LeakPhase.noConfusion h, fun h => LeakPhase.noConfusion h,
    fun h => LeakPhase.noConfusion h⟩

set_option maxRecDepth 100000 in
/-- One binary64 step preserves the invariant: the 15 intermediate fade-in
values stay below the double `0.8`, the 16th reaches the overshot maximum,
and fade-out exits to idle within 27 decrements. -/
theorem llInvF_step (s : LLState) (d : LLDraws) (hi : llInvF s) :
    llInvF (llStepF s d) := by
  obtain ⟨h1, h2, h3, h4⟩ := hi
  rcases s with ⟨leaks, idx, op, ph, dc⟩
  by_cases he : leaks.isEmpty
  · simpa [llStepF, he] using ⟨h1, h2, h3, h4⟩
  · cases ph with
    | idle =>
      simp only [llStepF, he, Bool.false_eq_true, if_false]
      split_ifs with htrig
      · exact ⟨fun h => LeakPhase.noConfusion h, fun _ => ⟨0, by omega, rfl⟩,
          fun h => LeakPhase.noConfusion h, fun h => LeakPhase.noConfusion h⟩
      · exact ⟨h1, h2, h3, h4⟩
    | fadeIn =>
      obtain ⟨k, hk, hko⟩ := h2 rfl
      have hop : op = opFadeIn k := hko
      have hsucc : fl64 (op + f005) = opFadeIn (k + 1) := by
        rw [hop, opFadeIn_succ]
      simp only [llStepF, he, Bool.false_eq_true, if_false]
      split_ifs with h08
      · refine ⟨fun h => LeakPhase.noConfusion h, fun h => LeakPhase.noConfusion h,
          fun _ => ?_, fun h => LeakPhase.noConfusion h⟩
        show fl64 (op + f005) = opFadeIn 16
        have hA : ∀ j : ℕ, j ≤ 14 → opFadeIn (j + 1) < f08 := by decide
        have hk15 : k = 15 := by
          by_contra hne15
          have hk14 : k ≤ 14 := by omega
          rw [hsucc] at h08
          exact absurd h08 (not_le.mpr (hA k hk14))
        rw [hsucc, hk15]
      · refine ⟨fun h => LeakPhase.noConfusion h, fun _ => ?_,
          fun h => LeakPhase.noConfusion h, fun h => LeakPhase.noConfusion h⟩
        refine ⟨k + 1, ?_, hsucc⟩
        have hB : f08 ≤ opFadeIn 16 := by decide
        by_contra hgt
        have hk15 : k = 15 := by omega
        rw [hsucc, hk15] at h08
        exact h08 hB
    | active =>
      have hop : op = opFadeIn 16 := h3 rfl
      simp only [llStepF, he, Bool.false_eq_true, if_false]
      split_ifs with hc
      · exact ⟨fun h => LeakPhase.noConfusion h, fun h => LeakPhase.noConfusion h,
          fun h => LeakPhase.noConfusion h,
          fun _ => ⟨0, by omega, by rw [opFadeOut_zero]; exact hop⟩⟩
      · exact ⟨fun h => LeakPhase.noConfusion h, fun h => LeakPhase.noConfusion h,
          fun _ => hop, fun h => LeakPhase.noConfusion h⟩
    | fadeOut =>
      obtain ⟨k, hk, hko⟩ := h4 rfl
      have hop : op = opFadeOut k := hko
      have hsucc : fl64 (op - f003) = opFadeOut (k + 1) := by
        rw [hop, opFadeOut_succ]
      simp only [llStepF, he, Bool.false_eq_true, if_false]
      split_ifs with h0
      · exact ⟨fun _ => rfl, fun h => LeakPhase.noConfusion h,
          fun h => LeakPhase.noConfusion h, fun h => LeakPhase.noConfusion h⟩
      · refine ⟨fun h => LeakPhase.noConfusion h, fun h => LeakPhase.noConfusion h,
          fun h => LeakPhase.noConfusion h, fun _ => ⟨k + 1, ?_, hsucc⟩⟩
        have hC : opFadeOut 27 ≤ 0 := by decide
        by_contra hgt
        have hk26 : k = 26 := by omega
        rw [hsucc, hk26] at h0
        exact h0 hC

/-- Every state reachable under the binary64 semantics satisfies the
invariant. -/
theorem llInvF_reachable (leaks : List Frame) (s : LLState)
    (hs : LLReachableF leaks s) : llInvF s := by
  induction hs with
  | init => exact llInvF_init leaks
  | step d _ _ ih => exact llInvF_step _ d ih

/-- Iterating a draw that stays valid (validity only reads the leak count,
which steps preserve) keeps the state reachable. -/
theorem llReachableF_iterate (leaks : List Frame) (d : LLDraws) :
    ∀ (n : ℕ) (s : LLState), LLReachableF leaks s → d.Valid s →
      LLReachableF leaks ((fun t => llStepF t d)^[n] s) := by
  intro n
  induction n with
  | zero => intro s hs _; exact hs
  | succ n ih =>
    intro s hs hv
    rw [Function.iterate_succ_apply]
    refine ih (llStepF s d) (LLReachableF.step d hs hv) ?_
    obtain ⟨hu, hidx, hdur⟩ := hv
    refine ⟨hu, ?_, hdur⟩
    rw [llStepF_leaks]
    exact hidx

/-!
## Claim theorems
-/

set_option maxRecDepth 40000 in
/-- C1: running a 2×2 pure-white frame through `portra_800_sim` with the
noise amount forced to 0 yields `(255, 255, 222)` at every pixel
(`clip(255+19), clip(255+10), clip(255-33)`), and the preceding
brightness / contrast / saturation / softening steps (the first four steps of
the pipeline) leave the pure-white frame unchanged. -/
theorem c1_portra800_white2x2 (noiseFn : ℕ → ℕ → RGB) :
    applyFilterPortra800SimAmt 0 noiseFn white2x2 =
      [[⟨255,255,222⟩, ⟨255,255,222⟩], [⟨255,255,222⟩, ⟨255,255,222⟩]] ∧
    runGrade ((portra800SimStepsAmt 0).take 4) noiseFn white2x2 = white2x2 := by
  constructor
  · rw [applyFilterPortra800SimAmt,
        runGrade_congr_noise noiseFn zeroNoise (portra800SimStepsAmt 0) (by decide) white2x2]
    decide
  · rw [runGrade_congr_noise noiseFn zeroNoise ((portra800SimStepsAmt 0).take 4)
        (by decide) white2x2]
    decide

/-- C6 (counterexample): `terracotta_sun_sim` does not follow the claimed
internal order — its softening call comes first, before the contrast and
saturation enhancements. -/
theorem c6_counterexample_terracotta_order :
    stepsOrdered terracottaSunSimSteps = false := rfl

/-- C6 (amended): the other four grade transforms do run PIL enhancements
first, softening second, array math third and noise last, while
`terracotta_sun_sim` applies softening (strength 4.0) first, then contrast
0.85, saturation 1.35, the mask arithmetic and noise 5. -/
theorem c6_amended_step_order :
    stepsOrdered modernFujiSimSteps = true ∧
    stepsOrdered portra800SimSteps = true ∧
    stepsOrdered realaAceSimSteps = true ∧
    stepsOrdered dreamyNegativeSimSteps = true ∧
    terracottaSunSimSteps =
      [.soften 4, .contrast (85/100), .color (135/100), .array .terracotta, .noise 5] :=
  ⟨rfl, rfl, rfl, rfl, rfl⟩

/-- C7: chromatic aberration with shift 0 and jitter with max shift 0 are
identities, and the zero-shift jitter consumes no random draws (the RNG
stream is returned untouched). -/
theorem c7_zero_param_identity :
    (∀ arr : Frame, applyChromaticAberration arr 0 = arr) ∧
    (∀ (arr : Frame) (rng : List ℤ), applyJitter arr 0 rng = (arr, rng)) := by
  refine ⟨fun arr => ?_, fun arr rng => ?_⟩
  · simp [applyChromaticAberration]
  · simp [applyJitter]

set_option maxRecDepth 40000 in
/-- C9 (counterexample): `modern_fuji_sim` on a uniform mid-gray frame does
not give red channel 142 — the output pixel is `(148, 138, 124)`, because the
brightness pre-pass does not leave gray 128 fixed. -/
theorem c9_counterexample_fuji_gray :
    (Frame.get (applyFilterModernFujiSim zeroNoise gray2x2) 0 0).r ≠ 142 := by
  decide

set_option maxRecDepth 40000 in
/-- C9 (amended): PIL brightness scales from black, not around a midpoint, so
the contrast 0.95 / brightness 1.05 pre-pass maps gray 128 to 134 (the first
two pipeline steps); the shift then yields `(149, 139, 124)` and the 95%/5%
luma blend gives `(148.25, 138.75, 124.5)`, truncating to `(148, 138, 124)`
at every pixel. -/
theorem c9_amended_fuji_gray (noiseFn : ℕ → ℕ → RGB) :
    runGrade (modernFujiSimSteps.take 2) noiseFn gray2x2 =
      [[⟨134,134,134⟩, ⟨134,134,134⟩], [⟨134,134,134⟩, ⟨134,134,134⟩]] ∧
    applyFilterModernFujiSim noiseFn gray2x2 =
      [[⟨148,138,124⟩, ⟨148,138,124⟩], [⟨148,138,124⟩, ⟨148,138,124⟩]] := by
  constructor
  · rw [runGrade_congr_noise noiseFn zeroNoise (modernFujiSimSteps.take 2) (by decide) gray2x2]
    decide
  · rw [applyFilterModernFujiSim,
        runGrade_congr_noise noiseFn zeroNoise modernFujiSimSteps (by decide) gray2x2]
    decide

/-- C8: `add_noise_vectorized` with amount 0 (or any non-positive amount)
returns the frame unchanged; for a positive amount, every output channel of
every pixel is a byte in `[0, 255]` and differs from the corresponding input
channel by at most `amount`. -/
theorem c8_add_noise_spec :
    (∀ (arr : Frame) (amount : ℤ) (noise : ℕ → ℕ → RGB), amount ≤ 0 →
      addNoiseVectorized arr amount noise = arr) ∧
    (∀ (arr : Frame) (amount : ℤ) (noise : ℕ → ℕ → RGB), 0 < amount →
      (∀ row ∈ arr, ∀ p ∈ row, ByteRGB p) →
      (∀ i j, NoiseDrawOK amount (noise i j)) →
      ∀ i j, i < arr.length → j < (arr.getD i []).length →
        ByteRGB (Frame.get (addNoiseVectorized arr amount noise) i j) ∧
        |(Frame.get (addNoiseVectorized arr amount noise) i j).r -
          (Frame.get arr i j).r| ≤ (amount : ℚ) ∧
        |(Frame.get (addNoiseVectorized arr amount noise) i j).g -
          (Frame.get arr i j).g| ≤ (amount : ℚ) ∧
        |(Frame.get (addNoiseVectorized arr amount noise) i j).b -
          (Frame.get arr i j).b| ≤ (amount : ℚ)) := by
  constructor
  · intro arr amount noise h
    simp [addNoiseVectorized, if_pos h]
  · intro arr amount noise hpos harr hnoise i j hi hj
    have hj' : j < arr[i].length := by
      rwa [List.getD_eq_getElem?_getD, List.getElem?_eq_getElem hi, Option.getD_some] at hj
    have hget : Frame.get arr i j = arr[i][j] := by
      unfold Frame.get
      simp only [List.getD_eq_getElem?_getD, List.getElem?_eq_getElem hi, Option.getD_some,
        List.getElem?_eq_getElem hj']
    have hbyte : ByteRGB (Frame.get arr i j) := by
      rw [hget]
      exact harr _ (List.getElem_mem hi) _ (List.getElem_mem hj')
    obtain ⟨hr, hg, hb⟩ := hbyte
    obtain ⟨hdr, hdg, hdb⟩ := hnoise i j
    rw [addNoise_get arr amount noise hpos i j hi hj]
    have Hr := clipByte_noise_bound amount _ _ hr hdr.1 hdr.2.1 hdr.2.2
    have Hg := clipByte_noise_bound amount _ _ hg hdg.1 hdg.2.1 hdg.2.2
    have Hb := clipByte_noise_bound amount _ _ hb hdb.1 hdb.2.1 hdb.2.2
    exact ⟨⟨Hr.1, Hg.1, Hb.1⟩, Hr.2, Hg.2, Hb.2⟩

/-- Witness for C8: the identity part at amount 0, and the bound part on a
1×1 frame with boundary channel values and a concrete draw `(3, -3, 1)`. -/
theorem c8_add_noise_spec_witness :
    addNoiseVectorized [[⟨1,2,3⟩]] 0 zeroNoise = [[⟨1,2,3⟩]] ∧
    (ByteRGB (Frame.get (addNoiseVectorized [[⟨0,128,255⟩]] 3
        (fun _ _ => (⟨3,-3,1⟩ : RGB))) 0 0) ∧
     |(Frame.get (addNoiseVectorized [[⟨0,128,255⟩]] 3
        (fun _ _ => (⟨3,-3,1⟩ : RGB))) 0 0).r - (Frame.get [[⟨0,128,255⟩]] 0 0).r| ≤ (3:ℚ) ∧
     |(Frame.get (addNoiseVectorized [[⟨0,128,255⟩]] 3
        (fun _ _ => (⟨3,-3,1⟩ : RGB))) 0 0).g - (Frame.get [[⟨0,128,255⟩]] 0 0).g| ≤ (3:ℚ) ∧
     |(Frame.get (addNoiseVectorized [[⟨0,128,255⟩]] 3
        (fun _ _ => (⟨3,-3,1⟩ : RGB))) 0 0).b - (Frame.get [[⟨0,128,255⟩]] 0 0).b| ≤ (3:ℚ)) :=
  ⟨c8_add_noise_spec.1 [[⟨1,2,3⟩]] 0 zeroNoise le_rfl,
   c8_add_noise_spec.2 [[⟨0,128,255⟩]] 3 (fun _ _ => (⟨3,-3,1⟩ : RGB)) (by norm_num)
     (by decide) (fun i j => by show NoiseDrawOK 3 (⟨3,-3,1⟩ : RGB); decide) 0 0 (by decide) (by decide)⟩

/-- C4 (counterexample): alpha-compositing the overlay twice is not the same
as compositing once at a semi-transparent pixel — for an overlay pixel of the
glow's halo color `(255, 120, 0, 180)` over a black base pixel, one composite
gives red 180 but two composites give red 233. -/
theorem c4_counterexample_not_idempotent :
    compositeOverlayTwice [[⟨0,0,0⟩]] [[haloColor]] ≠
      compositeOverlayOnce [[⟨0,0,0⟩]] [[haloColor]] := by
  decide

/-- C4 (amended): compositing the overlay twice agrees with compositing once
exactly when every overlay pixel is fully transparent or fully opaque; the
built overlay's glow layer is drawn at alpha 180 and blurred, so its
semi-transparent pixels break idempotence (see the counterexample). -/
theorem c4_amended_binary_alpha_idempotent :
    ∀ (base : RGB8Frame) (ov : RGBAFrame),
      (∀ row ∈ ov, ∀ p ∈ row, BinaryAlpha p) →
      compositeOverlayTwice base ov = compositeOverlayOnce base ov := by
  have main : ∀ (ov : RGBAFrame) (base : RGB8Frame),
      (∀ row ∈ ov, ∀ p ∈ row, BinaryAlpha p) →
      List.zipWith compositeRowOnce (List.zipWith compositeRowOnce base ov) ov =
        List.zipWith compositeRowOnce base ov := by
    intro ov
    induction ov with
    | nil => intro base h; simp
    | cons orow ot ih =>
      intro base h
      cases base with
      | nil => simp
      | cons r t =>
        have h1 : ∀ p ∈ orow, BinaryAlpha p := h orow (List.mem_cons_self orow ot)
        have h2 : ∀ row ∈ ot, ∀ p ∈ row, BinaryAlpha p :=
          fun row hm => h row (List.mem_cons_of_mem _ hm)
        simp only [List.zipWith_cons_cons]
        rw [compositeRowOnce_idem r orow h1, ih t h2]
  intro base ov h
  rw [compositeOverlayTwice, compositeOverlayOnce_eq, compositeOverlayOnce_eq]
  exact main ov base h

/-- Witness for C4 (amended) on a 1×1 base with a fully opaque overlay pixel. -/
theorem c4_amended_witness :
    compositeOverlayTwice [[⟨5,6,7⟩]] [[⟨1,2,3,255⟩]] =
      compositeOverlayOnce [[⟨5,6,7⟩]] [[⟨1,2,3,255⟩]] :=
  c4_amended_binary_alpha_idempotent [[⟨5,6,7⟩]] [[⟨1,2,3,255⟩]] (by decide)

/-- C5 (counterexample): `apply_chromatic_aberration` does not leave its
input buffer unchanged — with the pipeline's shift 2 on a 1×3 frame, the
buffer afterwards holds the rolled red channel, not the original. -/
theorem c5_counterexample_aberration_mutates :
    chromaticAberrationInputAfter [[⟨1,0,0⟩, ⟨2,0,0⟩, ⟨3,0,0⟩]] 2 ≠
      [[⟨1,0,0⟩, ⟨2,0,0⟩, ⟨3,0,0⟩]] := by
  decide

/-- C5 (amended): the grade transforms, noise, jitter, overlay compositing
and leak blending all leave their input buffer unchanged (each builds fresh
arrays), but `apply_chromatic_aberration` writes the rolled red and blue
channels back into its input buffer, which afterwards holds exactly the
function's return value. -/
theorem c5_amended_input_buffers :
    (∀ (nf : ℕ → ℕ → RGB) (steps : List GradeStep) (arr : Frame),
        gradeInputAfter nf steps arr = arr) ∧
    (∀ (arr : Frame) (amount : ℤ) (noise : ℕ → ℕ → RGB),
        noiseInputAfter arr amount noise = arr) ∧
    (∀ (arr : Frame) (m : ℤ) (rng : List ℤ), jitterInputAfter arr m rng = arr) ∧
    (∀ (base : RGB8Frame) (ov : RGBAFrame), compositeInputAfter base ov = base) ∧
    (∀ (s : LLState) (d : LLDraws) (arr : Frame), llApplyInputAfter s d arr = arr) ∧
    (∀ (arr : Frame) (shift : ℤ),
        chromaticAberrationInputAfter arr shift = applyChromaticAberration arr shift) :=
  ⟨fun _ _ _ => rfl, fun _ _ _ => rfl, fun _ _ _ => rfl, fun _ _ => rfl,
   fun _ _ _ => rfl, fun _ _ => rfl⟩

/-- C2: one `apply` call from a reachable state with loaded leaks updates the
state machine exactly as described: in idle, a trigger draw below 0.02 moves
to fade-in with a freshly drawn valid leak index and opacity 0, otherwise the
state (opacity 0) is unchanged; in fade-in the opacity grows by exactly 0.05,
entering active with a hold duration drawn from [10, 30] once it reaches 0.8;
an active state with counter `k ≥ 1` keeps its opacity for exactly `k` calls
and then enters fade-out; in fade-out the opacity drops by exactly 0.03 per
call until it would reach 0, at which point it is set to 0 and the phase
returns to idle. -/
theorem c2_state_machine (leaks : List Frame) (s : LLState) (d : LLDraws)
    (hs : LLReachable leaks s) (hne : s.leaks ≠ []) (hd : d.Valid s) :
    (s.phase = .idle →
      s.opacity = 0 ∧
      (d.u < 2/100 →
        llStep s d =
          { s with phase := .fadeIn, activeLeakIdx := d.leakIdx, opacity := 0 } ∧
        0 ≤ d.leakIdx ∧ d.leakIdx < (s.leaks.length : ℤ)) ∧
      (¬ d.u < 2/100 → llStep s d = s)) ∧
    (s.phase = .fadeIn →
      (llStep s d).opacity = s.opacity + 5/100 ∧
      (8/10 ≤ s.opacity + 5/100 →
        (llStep s d).phase = .active ∧ (llStep s d).durationCounter = d.holdDur ∧
        10 ≤ d.holdDur ∧ d.holdDur ≤ 30) ∧
      (s.opacity + 5/100 < 8/10 → (llStep s d).phase = .fadeIn)) ∧
    (∀ k : ℕ, s.phase = .active → s.durationCounter = (k : ℤ) → 1 ≤ k →
      ∀ ds : ℕ → LLDraws,
        (∀ j, j < k → (llSteps ds j s).phase = .active) ∧
        (llSteps ds k s).phase = .fadeOut ∧
        (∀ j, j ≤ k → (llSteps ds j s).opacity = s.opacity)) ∧
    (s.phase = .fadeOut →
      (3/100 < s.opacity → llStep s d = { s with opacity := s.opacity - 3/100 }) ∧
      (s.opacity ≤ 3/100 → (llStep s d).opacity = 0 ∧ (llStep s d).phase = .idle)) := by
  obtain ⟨h1, _, _, _, _⟩ := llInv_reachable leaks s hs
  obtain ⟨hu, hidx, hdur⟩ := hd
  have hlen : 1 ≤ s.leaks.length := by
    cases hle : s.leaks with
    | nil => exact absurd hle hne
    | cons a t => simp
  refine ⟨fun hph => ?_, fun hph => ?_, fun k hph hdc hk ds => ?_, fun hph => ?_⟩
  · refine ⟨h1 hph, fun ht => ?_, fun ht => ?_⟩
    · rw [llStep_idle s d hne hph, if_pos ht]
      exact ⟨rfl, hidx hlen⟩
    · rw [llStep_idle s d hne hph, if_neg ht]
  · have hstep := llStep_fadeIn s d hne hph
    refine ⟨?_, fun h08 => ?_, fun hlt => ?_⟩
    · rw [hstep]
      split_ifs <;> rfl
    · rw [hstep, if_pos h08]
      exact ⟨rfl, rfl, hdur⟩
    · rw [hstep, if_neg (not_le.mpr hlt)]
      exact hph
  · exact llSteps_active_hold k s ds hne hph hdc hk
  · have hstep := llStep_fadeOut s d hne hph
    refine ⟨fun h3 => ?_, fun h3 => ?_⟩
    · rw [hstep, if_neg (by linarith)]
    · rw [hstep, if_pos (by linarith)]
      exact ⟨rfl, rfl⟩

/-- Witness for C2: from the freshly constructed manager with one loaded
leak, a trigger draw of 0 moves the state to fade-in with leak index 0 and
opacity 0. -/
theorem c2_state_machine_witness :
    llStep (LLState.init [([] : Frame)]) ⟨0, 0, 10⟩ =
      { LLState.init [([] : Frame)] with
          phase := .fadeIn, activeLeakIdx := 0, opacity := 0 } :=
  (((c2_state_machine [([] : Frame)] _ ⟨0, 0, 10⟩ LLReachable.init (by decide)
      (by decide)).1 rfl).2.1 (by norm_num)).1

set_option maxRecDepth 100000 in
/-- C3 (counterexample): the claimed bound `opacity ≤ 0.8` is false of the
program's float arithmetic — after one idle trigger and 16 binary64 fade-in
increments (a reachable state, shown by the chained valid draws), the phase
is active (non-idle) and the stored opacity is `0.8000000000000002 > 0.8`. -/
theorem c3_counterexample_opacity_overshoot :
    LLReachableF [([] : Frame)]
      ((fun t => llStepF t ⟨0, 0, 10⟩)^[17] (LLState.init [([] : Frame)])) ∧
    ((fun t => llStepF t ⟨0, 0, 10⟩)^[17] (LLState.init [([] : Frame)])).phase ≠ .idle ∧
    4/5 < ((fun t => llStepF t ⟨0, 0, 10⟩)^[17] (LLState.init [([] : Frame)])).opacity :=
  ⟨llReachableF_iterate [([] : Frame)] ⟨0, 0, 10⟩ 17 _ LLReachableF.init (by decide),
   by decide, by decide⟩

set_option maxRecDepth 100000 in
/-- C3 (amended): in every reachable state the opacity is exactly 0 while
idle; outside idle it lies in `[0, m]` where `m` is the binary64 sum of 16
increments of 0.05 — the value 0.8000000000000002, which exceeds 0.8 by less
than `2^-50`.  Under the exact-real reading of the update steps (the
idealized `llStep`), the bound is exactly `[0, 0.8]`. -/
theorem c3_amended_opacity_range :
    (∀ (leaks : List Frame) (s : LLState), LLReachableF leaks s →
      (s.phase = .idle → s.opacity = 0) ∧
      (s.phase ≠ .idle → 0 ≤ s.opacity ∧ s.opacity ≤ opFadeIn 16)) ∧
    (4/5 < opFadeIn 16 ∧ opFadeIn 16 < 4/5 + 1/2^50) ∧
    (∀ (leaks : List Frame) (s : LLState), LLReachable leaks s →
      (s.phase = .idle → s.opacity = 0) ∧
      (s.phase ≠ .idle → 0 ≤ s.opacity ∧ s.opacity ≤ 8/10)) := by
  refine ⟨?_, by decide, ?_⟩
  · intro leaks s hs
    obtain ⟨h1, h2, h3, h4⟩ := llInvF_reachable leaks s hs
    refine ⟨h1, fun hne => ?_⟩
    have hD : ∀ k : ℕ, k ≤ 15 → 0 ≤ opFadeIn k ∧ opFadeIn k ≤ opFadeIn 16 := by decide
    have hE : (0 : ℚ) ≤ opFadeIn 16 := by decide
    have hF : ∀ k : ℕ, k ≤ 26 → 0 ≤ opFadeOut k ∧ opFadeOut k ≤ opFadeIn 16 := by decide
    cases hph : s.phase with
    | idle => exact absurd hph hne
    | fadeIn =>
      obtain ⟨k, hk, hko⟩ := h2 hph
      rw [hko]
      exact hD k hk
    | active =>
      rw [h3 hph]
      exact ⟨hE, le_refl _⟩
    | fadeOut =>
      obtain ⟨k, hk, hko⟩ := h4 hph
      rw [hko]
      exact hF k hk
  · intro leaks s hs
    obtain ⟨h1, h2, h3, h4, _⟩ := llInv_reachable leaks s hs
    refine ⟨h1, fun hne => ?_⟩
    cases hph : s.phase with
    | idle => exact absurd hph hne
    | fadeIn =>
      obtain ⟨k, hk, hko⟩ := h2 hph
      have hk15 : (k : ℚ) ≤ 15 := by exact_mod_cast hk
      have hk0 : (0 : ℚ) ≤ (k : ℚ) := by positivity
      rw [hko]
      constructor <;> nlinarith
    | active =>
      rw [h3 hph]
      norm_num
    | fadeOut =>
      obtain ⟨k, hk, hko⟩ := h4 hph
      have hk26 : (k : ℚ) ≤ 26 := by exact_mod_cast hk
      have hk0 : (0 : ℚ) ≤ (k : ℚ) := by positivity
      rw [hko]
      constructor <;> nlinarith

/-- Witness for C3 (amended) at the freshly constructed idle state, under
both the binary64 and the idealized semantics. -/
theorem c3_amended_opacity_range_witness :
    (((LLState.init []).phase = .idle → (LLState.init []).opacity = 0) ∧
     ((LLState.init []).phase ≠ .idle →
       0 ≤ (LLState.init []).opacity ∧ (LLState.init []).opacity ≤ opFadeIn 16)) ∧
    (((LLState.init []).phase = .idle → (LLState.init []).opacity = 0) ∧
     ((LLState.init []).phase ≠ .idle →
       0 ≤ (LLState.init []).opacity ∧ (LLState.init []).opacity ≤ 8/10)) :=
  ⟨c3_amended_opacity_range.1 [] _ LLReachableF.init,
   c3_amended_opacity_range.2.2 [] _ LLReachable.init⟩

/-- C10: in every reachable state, whenever the blend branch's visibility
test holds (`opacity > 0.01`; the branch also requires loaded leaks), the
`active_leak_idx` is a valid index into the loaded leaks — never the `-1`
sentinel from construction. -/
theorem c10_blend_index_valid (leaks : List Frame) (s : LLState)
    (hs : LLReachable leaks s) (ho : 1/100 < s.opacity) :
    0 ≤ s.activeLeakIdx ∧ s.activeLeakIdx < (s.leaks.length : ℤ) := by
  obtain ⟨h1, _, _, _, h5⟩ := llInv_reachable leaks s hs
  refine h5 (fun hph => ?_)
  rw [h1 hph] at ho
  norm_num at ho

/-- Witness for C10 at the reachable state two calls in (idle trigger, then
one fade-in increment to opacity 0.05). -/
theorem c10_blend_index_valid_witness :
    0 ≤ (llStep (llStep (LLState.init [([] : Frame)]) ⟨0, 0, 10⟩) ⟨0, 0, 10⟩).activeLeakIdx ∧
    (llStep (llStep (LLState.init [([] : Frame)]) ⟨0, 0, 10⟩) ⟨0, 0, 10⟩).activeLeakIdx <
      (((llStep (llStep (LLState.init [([] : Frame)]) ⟨0, 0, 10⟩) ⟨0, 0, 10⟩).leaks.length : ℤ)) :=
  c10_blend_index_valid [([] : Frame)] _
    (LLReachable.step ⟨0, 0, 10⟩
      (LLReachable.step ⟨0, 0, 10⟩ LLReachable.init (by decide)) (by decide))
    (by decide)

end VideoVintage
